import Mathlib

/-!
# Verification of the timbal streaming chat client

A shallow embedding of the streaming run client of this repository:

* the event validation of `src/timbal/events.ts` (`parseEvent`),
* the newline-buffered stream decoder of `src/timbal/client.ts` (`streamRun`)
  and the retry policy of `request` / `stream`,
* the line parser and event-to-transcript reducer of
  `src/components/assistant-ui/timbal-runtime.tsx` (`parseLine`,
  `streamAssistantResponse`, `onReload`),
* the authenticated fetch wrapper (`authFetch`) of the auth token module.

JavaScript's built-in `JSON.parse` is not code of this repository; it is
modelled as an abstract parameter `P : Chars → Option Json` wherever a
definition calls it.  All other behaviour (truthiness, field access,
string conversion, buffering, branching) is translated from the source.
-/

set_option autoImplicit false

namespace Timbal

/-- A model of the JSON values produced by `JSON.parse`.
Numbers are modelled as integers (the claims under study only inspect
string-valued fields and truthiness); object fields are a key/value list.
`JSON.parse` output has unique keys (last duplicate wins during parsing),
so field access is modelled as first-match lookup. -/
inductive Json where
  | null : Json
  | bool (b : Bool) : Json
  | num (n : Int) : Json
  | str (s : String) : Json
  | arr (elems : List Json) : Json
  | obj (fields : List (String × Json)) : Json

/-- JavaScript truthiness of a JSON value (`!x` in the source negates this).
`null`, `false`, `0` and `""` are falsy; arrays and objects are truthy. -/
def truthy : Json → Bool
  | .null => false
  | .bool b => b
  | .num n => n != 0
  | .str s => s != ""
  | .arr _ => true
  | .obj _ => true

/-- Property access `j.k`: field lookup on an object, `undefined` (`none`)
on every other value or when the key is absent. -/
def getField (j : Json) (key : String) : Option Json :=
  match j with
  | .obj fields => go fields
  | _ => none
where go : List (String × Json) → Option Json
  | [] => none
  | (k, v) :: rest => if k = key then some v else go rest

/-- Truthiness of the property `j.k`: false when the field is absent
(`undefined` is falsy). -/
def truthyField (j : Json) (key : String) : Bool :=
  match getField j key with
  | some v => truthy v
  | none => false

/-- Strict equality `j.k === s` against a string literal: true only when the
field holds exactly that string. -/
def isStrField (j : Json) (key : String) (s : String) : Bool :=
  match getField j key with
  | some (.str t) => t == s
  | _ => false

/-- `parseEvent` of `src/timbal/events.ts` after `JSON.parse` has succeeded:
throws (returns `none`) unless `type`, `run_id`, `path` and `call_id` are all
truthy and `type` is one of the four recognized tags, and otherwise returns
the parsed value unchanged. -/
def parseEventJson (j : Json) : Option Json :=
  if truthyField j "type" && truthyField j "run_id" &&
     truthyField j "path" && truthyField j "call_id" then
    if isStrField j "type" "START" || isStrField j "type" "CHUNK" ||
       isStrField j "type" "OUTPUT" || isStrField j "type" "DELTA" then
      some j
    else
      none
  else
    none

/-- An event value that passed `parseEvent`'s structural validation. -/
def validatedEvent (j : Json) : Prop :=
  truthyField j "type" = true ∧ truthyField j "run_id" = true ∧
  truthyField j "path" = true ∧ truthyField j "call_id" = true ∧
  (isStrField j "type" "START" = true ∨ isStrField j "type" "CHUNK" = true ∨
   isStrField j "type" "OUTPUT" = true ∨ isStrField j "type" "DELTA" = true)

theorem parseEventJson_eq_some {j e : Json} (h : parseEventJson j = some e) :
    e = j ∧ validatedEvent j := by
  unfold parseEventJson at h
  by_cases h1 : (truthyField j "type" && truthyField j "run_id" &&
      truthyField j "path" && truthyField j "call_id") = true
  · rw [if_pos h1] at h
    by_cases h2 : (isStrField j "type" "START" || isStrField j "type" "CHUNK" ||
        isStrField j "type" "OUTPUT" || isStrField j "type" "DELTA") = true
    · rw [if_pos h2] at h
      simp only [Option.some.injEq] at h
      simp only [Bool.and_eq_true] at h1
      simp only [Bool.or_eq_true] at h2
      refine ⟨h.symm, h1.1.1.1, h1.1.1.2, h1.1.2, h1.2, ?_⟩
      tauto
    · rw [if_neg h2] at h
      exact absurd h (by simp)
  · rw [if_neg h1] at h
    exact absurd h (by simp)

theorem parseEventJson_of_validated {j : Json} (h : validatedEvent j) :
    parseEventJson j = some j := by
  obtain ⟨h1, h2, h3, h4, h5⟩ := h
  unfold parseEventJson
  rw [if_pos (by simp [h1, h2, h3, h4]), if_pos (by simp only [Bool.or_eq_true]; tauto)]

/-! ## Text fragments and newline splitting

The transport delivers text in arbitrary chunks; the decoders buffer them
and split on `"\n"`.  Text is modelled as `List Char` so that splitting and
concatenation can be reasoned about structurally. -/

/-- A piece of stream text. -/
abbrev Chars := List Char

/-- JavaScript `trim` whitespace test, restricted to the ASCII whitespace
characters relevant to this protocol. -/
def isWsChar (c : Char) : Bool :=
  c == ' ' || c == '\t' || c == '\n' || c == '\r' ||
  c == '\x0b' || c == '\x0c'

/-- `String.prototype.trim`: strip whitespace from both ends. -/
def trimChars (s : Chars) : Chars :=
  ((s.dropWhile isWsChar).reverse.dropWhile isWsChar).reverse

/-- `startsWithL p s` is `s.startsWith(p)` on character lists. -/
def startsWithL (p s : Chars) : Bool :=
  p.isPrefixOf s

/-- `buffer.split("\n")`: the list of segments of `s` delimited by `'\n'`,
never empty (splitting the empty string gives one empty segment). -/
def splitSegs : Chars → List Chars
  | [] => [[]]
  | c :: cs =>
    if c = '\n' then [] :: splitSegs cs
    else
      match splitSegs cs with
      | [] => [[c]]
      | l :: ls => (c :: l) :: ls

theorem splitSegs_nil_eq : splitSegs [] = [[]] := rfl

theorem splitSegs_cons_newline (cs : Chars) :
    splitSegs ('\n' :: cs) = [] :: splitSegs cs := by
  simp [splitSegs]

theorem splitSegs_ne_nil (s : Chars) : splitSegs s ≠ [] := by
  match s with
  | [] => simp [splitSegs]
  | c :: cs =>
    unfold splitSegs
    split
    · simp
    · split <;> simp

theorem splitSegs_cons_of_ne {c : Char} (hc : ¬ c = '\n') {cs x : Chars}
    {xs : List Chars} (hsp : splitSegs cs = x :: xs) :
    splitSegs (c :: cs) = (c :: x) :: xs := by
  unfold splitSegs
  rw [if_neg hc, hsp]

theorem splitSegs_no_newline {s : Chars} (h : '\n' ∉ s) : splitSegs s = [s] := by
  induction s with
  | nil => rfl
  | cons c cs ih =>
    have hc : ¬ c = '\n' := fun hEq => h (hEq ▸ List.mem_cons_self c cs)
    have hcs : '\n' ∉ cs := fun hm => h (List.mem_cons_of_mem c hm)
    unfold splitSegs
    rw [if_neg hc, ih hcs]

theorem mem_splitSegs_no_newline {s : Chars} {l : Chars}
    (h : l ∈ splitSegs s) : '\n' ∉ l := by
  induction s generalizing l with
  | nil =>
    simp only [splitSegs, List.mem_singleton] at h
    subst h; simp
  | cons c cs ih =>
    unfold splitSegs at h
    split at h
    · rcases List.mem_cons.1 h with h1 | h1
      · subst h1; simp
      · exact ih h1
    · rename_i hc
      rcases hsp : splitSegs cs with _ | ⟨x, xs⟩
      · exact absurd hsp (splitSegs_ne_nil cs)
      · rw [hsp] at h
        rcases List.mem_cons.1 h with h1 | h1
        · subst h1
          intro hm
          rcases List.mem_cons.1 hm with h2 | h2
          · exact hc h2.symm
          · exact ih (hsp ▸ List.mem_cons_self x xs) h2
        · exact ih (hsp ▸ List.mem_cons_of_mem x h1)

theorem getLastD_append {α : Type} (xs : List α) {ys : List α} (h : ys ≠ [])
    (d : α) : (xs ++ ys).getLastD d = ys.getLastD d := by
  rcases ys with _ | ⟨y, ys'⟩
  · exact absurd rfl h
  · rw [List.getLastD_eq_getLast?, List.getLastD_eq_getLast?,
      List.getLast?_append_cons]

theorem getLastD_mem {α : Type} {l : List α} (h : l ≠ []) (d : α) :
    l.getLastD d ∈ l := by
  rcases l with _ | ⟨x, xs⟩
  · exact absurd rfl h
  · rw [List.getLastD_cons]
    exact List.getLastD_mem_cons xs x

/-- Prepending a newline-free prefix and a newline shifts the split by one
leading segment. -/
theorem splitSegs_append_newline {a : Chars} (h : '\n' ∉ a) (b : Chars) :
    splitSegs (a ++ '\n' :: b) = a :: splitSegs b := by
  induction a with
  | nil =>
    rw [List.nil_append, splitSegs_cons_newline]
  | cons c cs ih =>
    have hc : ¬ c = '\n' := fun hEq => h (hEq ▸ List.mem_cons_self c cs)
    have hcs : '\n' ∉ cs := fun hm => h (List.mem_cons_of_mem c hm)
    rw [List.cons_append, splitSegs_cons_of_ne hc (ih hcs)]

/-- The key compositionality lemma for the carry-over buffer: splitting a
concatenation splits the first part, keeps its complete segments, and carries
its last (incomplete) segment into the second part's split. -/
theorem splitSegs_append (a b : Chars) :
    splitSegs (a ++ b) =
      (splitSegs a).dropLast ++ splitSegs ((splitSegs a).getLastD [] ++ b) := by
  induction a with
  | nil => simp [splitSegs]
  | cons c cs ih =>
    rcases hsp : splitSegs cs with _ | ⟨x, xs⟩
    · exact absurd hsp (splitSegs_ne_nil cs)
    by_cases hc : c = '\n'
    · subst hc
      rw [List.cons_append, splitSegs_cons_newline, splitSegs_cons_newline, ih, hsp]
      simp [List.getLastD_cons]
    · rcases hab : splitSegs (cs ++ b) with _ | ⟨z, zs⟩
      · exact absurd hab (splitSegs_ne_nil _)
      rw [List.cons_append, splitSegs_cons_of_ne hc hab, splitSegs_cons_of_ne hc hsp]
      rw [ih, hsp] at hab
      rcases xs with _ | ⟨y, ys⟩
      · -- the first part has one segment: everything is carried over
        simp only [List.dropLast_single, List.nil_append, List.getLastD_cons,
          List.getLastD_nil] at hab ⊢
        rcases hxb : splitSegs (x ++ b) with _ | ⟨w, ws⟩
        · exact absurd hxb (splitSegs_ne_nil _)
        rw [hxb] at hab
        injection hab with h1 h2
        rw [show (c :: x) ++ b = c :: (x ++ b) from rfl, splitSegs_cons_of_ne hc hxb, h1, h2]
      · -- the first part has at least two segments
        rw [List.dropLast_cons_of_ne_nil (by simp), List.cons_append] at hab
        injection hab with h1 h2
        rw [List.dropLast_cons_of_ne_nil (by simp), List.cons_append, ← h1, ← h2]
        simp [List.getLastD_cons]

/-- Join a list of records with `'\n'` separators (no trailing newline). -/
def joinNl : List Chars → Chars
  | [] => []
  | [r] => r
  | r :: rs => r ++ '\n' :: joinNl rs

theorem splitSegs_joinNl {records : List Chars} (hne : records ≠ [])
    (h : ∀ r ∈ records, '\n' ∉ r) : splitSegs (joinNl records) = records := by
  induction records with
  | nil => exact absurd rfl hne
  | cons r rs ih =>
    rcases rs with _ | ⟨r2, rs2⟩
    · exact splitSegs_no_newline (h r (List.mem_cons_self r []))
    · show splitSegs (r ++ '\n' :: joinNl (r2 :: rs2)) = _
      rw [splitSegs_append_newline (h r (List.mem_cons_self r _)),
        ih (by simp) (fun x hx => h x (List.mem_cons_of_mem r hx))]

theorem splitSegs_joinNl_newline {records : List Chars} (hne : records ≠ [])
    (h : ∀ r ∈ records, '\n' ∉ r) :
    splitSegs (joinNl records ++ ['\n']) = records ++ [[]] := by
  induction records with
  | nil => exact absurd rfl hne
  | cons r rs ih =>
    rcases rs with _ | ⟨r2, rs2⟩
    · show splitSegs (r ++ '\n' :: []) = [r, []]
      rw [splitSegs_append_newline (h r (List.mem_cons_self r []))]
      rfl
    · show splitSegs ((r ++ '\n' :: joinNl (r2 :: rs2)) ++ ['\n']) = _
      rw [List.append_assoc, List.cons_append,
        splitSegs_append_newline (h r (List.mem_cons_self r _)),
        ih (by simp) (fun x hx => h x (List.mem_cons_of_mem r hx))]
      rfl

/-! ## The `streamRun` decoder of `src/timbal/client.ts`

`streamRun` appends each arriving chunk to a carry-over buffer, splits the
buffer on `"\n"`, keeps the final (possibly incomplete) segment as the new
buffer, classifies every complete line, and flushes the residual buffer when
the stream ends.  `JSON.parse` is passed in as `P`. -/

/-- `parseEvent` of `src/timbal/events.ts` on a raw string: `JSON.parse`
followed by the structural validation. -/
def parseEventStr (P : Chars → Option Json) (s : Chars) : Option Json :=
  (P s).bind parseEventJson

/-- Per-line classification of `streamRun` (client.ts lines 470-508): trim;
drop blank lines, SSE metadata lines (`:`/`id:`/`event:`/`retry:` starts),
the `[DONE]` sentinel and empty payloads after a `data: ` frame, and lines
not starting with `{`; parse the survivor, dropping it if parsing or
validation fails. -/
def lineEvents (P : Chars → Option Json) (line : Chars) : List Json :=
  let t := trimChars line
  if t.isEmpty then []
  else if startsWithL [':'] t || startsWithL "id:".data t ||
      startsWithL "event:".data t || startsWithL "retry:".data t then []
  else if startsWithL "data: ".data t then
    let jsonData := trimChars (t.drop 6)
    if jsonData.isEmpty || jsonData == "[DONE]".data then []
    else
      match parseEventStr P jsonData with
      | some e => [e]
      | none => []
  else if ! startsWithL ['{'] t then []
  else
    match parseEventStr P t with
    | some e => [e]
    | none => []

/-- End-of-stream flush of `streamRun` (client.ts lines 512-520): if the
residual buffer trims to something nonempty, try to parse it as one event. -/
def flushBuffer (P : Chars → Option Json) (buf : Chars) : List Json :=
  let t := trimChars buf
  if t.isEmpty then []
  else
    match parseEventStr P t with
    | some e => [e]
    | none => []

/-- One buffering step (client.ts lines 462-468): append the chunk, split on
newline, pop the final segment back into the buffer, return the complete
lines. -/
def decodeStep (buf frag : Chars) : Chars × List Chars :=
  let segs := splitSegs (buf ++ frag)
  (segs.getLastD [], segs.dropLast)

/-- The full decoding loop of `streamRun` over the transport's fragments,
starting from carry-over buffer `buf`. -/
def decodeRun (P : Chars → Option Json) : List Chars → Chars → List Json
  | [], buf => flushBuffer P buf
  | f :: fs, buf =>
    ((decodeStep buf f).2).flatMap (lineEvents P) ++ decodeRun P fs (decodeStep buf f).1

/-- The event sequence `streamRun` emits for a stream of text fragments. -/
def streamRunDecode (P : Chars → Option Json) (frags : List Chars) : List Json :=
  decodeRun P frags []

/-- Reference semantics: decode the whole stream text at once — split into
segments, classify every complete line, flush the final segment. -/
def decodeAll (P : Chars → Option Json) (s : Chars) : List Json :=
  ((splitSegs s).dropLast).flatMap (lineEvents P) ++
    flushBuffer P ((splitSegs s).getLastD [])

theorem decodeRun_eq_decodeAll (P : Chars → Option Json) (frags : List Chars)
    {buf : Chars} (hbuf : '\n' ∉ buf) :
    decodeRun P frags buf = decodeAll P (buf ++ frags.flatten) := by
  induction frags generalizing buf with
  | nil =>
    show flushBuffer P buf = _
    rw [decodeAll, List.flatten_nil, List.append_nil, splitSegs_no_newline hbuf]
    rfl
  | cons f fs ih =>
    show ((splitSegs (buf ++ f)).dropLast).flatMap (lineEvents P) ++
        decodeRun P fs ((splitSegs (buf ++ f)).getLastD []) = _
    have hsegs := splitSegs_ne_nil (buf ++ f)
    have hbuf2 : '\n' ∉ (splitSegs (buf ++ f)).getLastD [] :=
      mem_splitSegs_no_newline (getLastD_mem hsegs [])
    rw [ih hbuf2]
    rw [decodeAll, decodeAll, List.flatten_cons, ← List.append_assoc buf f fs.flatten,
      splitSegs_append (buf ++ f) fs.flatten]
    have hne : splitSegs ((splitSegs (buf ++ f)).getLastD [] ++ fs.flatten) ≠ [] :=
      splitSegs_ne_nil _
    rw [List.dropLast_append_of_ne_nil _ hne, List.flatMap_append,
      getLastD_append _ hne, List.append_assoc]

/-- Fragment-boundary invariance, abstractly: the decoder's output depends
only on the concatenation of the fragments. -/
theorem streamRunDecode_eq_decodeAll (P : Chars → Option Json)
    (frags : List Chars) : streamRunDecode P frags = decodeAll P frags.flatten := by
  rw [streamRunDecode, decodeRun_eq_decodeAll P frags (by simp), List.nil_append]

/-! ### Well-formed records and claim C1 -/

/-- The event a record line decodes to: `JSON.parse` of its trimmed text,
then `parseEvent` validation. -/
def recordEvent (P : Chars → Option Json) (r : Chars) : Option Json :=
  parseEventStr P (trimChars r)

/-- A valid newline-delimited event record: no embedded newline, trimmed
text is a JSON object (starts with `{`), and it parses and validates to an
event. -/
def ValidRecord (P : Chars → Option Json) (r : Chars) : Prop :=
  '\n' ∉ r ∧ startsWithL ['{'] (trimChars r) = true ∧
    (recordEvent P r).isSome = true

theorem startsWith_open {t : Chars} (h : startsWithL ['{'] t = true) :
    ∃ t', t = '{' :: t' := by
  cases t with
  | nil => simp [startsWithL, List.isPrefixOf] at h
  | cons c cs =>
    simp [startsWithL, List.isPrefixOf] at h
    exact ⟨cs, by rw [← h]⟩

theorem lineEvents_of_open {P : Chars → Option Json} {r t' : Chars}
    (ht : trimChars r = '{' :: t') :
    lineEvents P r = (recordEvent P r).toList := by
  rw [recordEvent]
  simp only [lineEvents, ht]
  simp [startsWithL, List.isPrefixOf]
  cases parseEventStr P ('{' :: t') <;> simp

theorem flushBuffer_of_open {P : Chars → Option Json} {r t' : Chars}
    (ht : trimChars r = '{' :: t') :
    flushBuffer P r = (recordEvent P r).toList := by
  rw [recordEvent]
  simp only [flushBuffer, ht, List.isEmpty_cons, Bool.false_eq_true, if_false]
  cases parseEventStr P ('{' :: t') <;> simp

theorem filterMap_cons_toList {α β : Type} (f : α → Option β) (a : α)
    (l : List α) : (a :: l).filterMap f = (f a).toList ++ l.filterMap f := by
  cases h : f a <;> simp [List.filterMap_cons, h]

theorem getLastD_irrel {α : Type} (l : List α) (h : l ≠ []) (d d' : α) :
    l.getLastD d = l.getLastD d' := by
  rcases l with _ | ⟨x, xs⟩
  · exact absurd rfl h
  · rw [List.getLastD_cons, List.getLastD_cons]

theorem decodeLines_valid {P : Chars → Option Json} :
    ∀ (rs : List Chars), rs ≠ [] → (∀ r ∈ rs, ValidRecord P r) →
      (rs.dropLast).flatMap (lineEvents P) ++ flushBuffer P (rs.getLastD []) =
        rs.filterMap (recordEvent P)
  | [], hne, _ => absurd rfl hne
  | [r], _, h => by
    obtain ⟨t', ht⟩ := startsWith_open (h r (List.mem_cons_self r [])).2.1
    rw [List.dropLast_single, List.flatMap_nil, List.nil_append, List.getLastD_cons,
      List.getLastD_nil, flushBuffer_of_open ht, filterMap_cons_toList,
      List.filterMap_nil, List.append_nil]
  | r :: r2 :: rs, _, h => by
    obtain ⟨t', ht⟩ := startsWith_open (h r (List.mem_cons_self r _)).2.1
    have ih := decodeLines_valid (r2 :: rs) (by simp)
      (fun x hx => h x (List.mem_cons_of_mem r hx))
    rw [List.dropLast_cons_of_ne_nil (by simp), List.flatMap_cons,
      List.getLastD_cons, getLastD_irrel (r2 :: rs) (by simp) r [],
      List.append_assoc, ih, lineEvents_of_open ht]
    simp only [filterMap_cons_toList, List.append_assoc]

theorem flatMap_lineEvents_valid {P : Chars → Option Json} :
    ∀ {rs : List Chars}, (∀ r ∈ rs, ValidRecord P r) →
      rs.flatMap (lineEvents P) = rs.filterMap (recordEvent P)
  | [], _ => rfl
  | r :: rs, h => by
    obtain ⟨t', ht⟩ := startsWith_open (h r (List.mem_cons_self r _)).2.1
    rw [List.flatMap_cons, lineEvents_of_open ht, filterMap_cons_toList,
      flatMap_lineEvents_valid (fun x hx => h x (List.mem_cons_of_mem r hx))]

theorem length_filterMap_of_isSome {α β : Type} (f : α → Option β) :
    ∀ (l : List α), (∀ x ∈ l, (f x).isSome = true) →
      (l.filterMap f).length = l.length
  | [], _ => rfl
  | a :: l, h => by
    rcases hfa : f a with _ | b
    · exact absurd (h a (List.mem_cons_self a l)) (by simp [hfa])
    · rw [List.filterMap_cons_some hfa, List.length_cons, List.length_cons,
        length_filterMap_of_isSome f l (fun x hx => h x (List.mem_cons_of_mem a hx))]

/-- C1: Fragment-boundary invariance of the streaming decoder.  For every
sequence of text fragments whose concatenation is `N` newline-delimited valid
event records (with or without a final trailing newline), `streamRun`'s
decoding loop — append each fragment to a carry-over buffer, split on
newline, keep the final possibly-incomplete segment as the new carry-over,
process complete lines, and flush the residual buffer at end of stream —
emits exactly `N` validated events, in record order, regardless of where the
fragment boundaries fall. -/
theorem c1_fragment_boundary_invariance (P : Chars → Option Json)
    (records frags : List Chars)
    (hrec : ∀ r ∈ records, ValidRecord P r)
    (hjoin : frags.flatten = joinNl records ∨
      frags.flatten = joinNl records ++ ['\n']) :
    streamRunDecode P frags = records.filterMap (recordEvent P) ∧
      (streamRunDecode P frags).length = records.length := by
  have hnl : ∀ r ∈ records, '\n' ∉ r := fun r hr => (hrec r hr).1
  have hsome : ∀ r ∈ records, (recordEvent P r).isSome = true :=
    fun r hr => (hrec r hr).2.2
  have hmain : streamRunDecode P frags = records.filterMap (recordEvent P) := by
    rw [streamRunDecode_eq_decodeAll]
    rcases hjoin with hj | hj <;> rw [hj]
    · rcases records with _ | ⟨r, rs⟩
      · rfl
      · rw [decodeAll, splitSegs_joinNl (by simp) hnl]
        exact decodeLines_valid _ (by simp) hrec
    · rcases records with _ | ⟨r, rs⟩
      · rfl
      · rw [decodeAll, splitSegs_joinNl_newline (by simp) hnl,
          List.dropLast_concat, getLastD_append _ (by simp)]
        have hflush : flushBuffer P (([[]] : List Chars).getLastD []) = [] := rfl
        rw [hflush, List.append_nil]
        exact flatMap_lineEvents_valid hrec
  exact ⟨hmain, by rw [hmain]; exact length_filterMap_of_isSome _ _ hsome⟩

/-! ### Concrete sample data for evaluating the decoder theorems -/

/-- A parsed `START` event value. -/
def sampleEvent1 : Json :=
  .obj [("type", .str "START"), ("run_id", .str "r1"), ("path", .str "agent"),
    ("call_id", .str "c1")]

/-- A parsed `OUTPUT` event value. -/
def sampleEvent2 : Json :=
  .obj [("type", .str "OUTPUT"), ("run_id", .str "r1"), ("path", .str "agent"),
    ("call_id", .str "c2"), ("output", .str "hi")]

/-- The wire text of `sampleEvent1`. -/
def sampleLine1 : Chars :=
  ("\x7b\"type\":\"START\",\"run_id\":\"r1\",\"path\":\"agent\",\"call_id\":\"c1\"\x7d").data

/-- The wire text of `sampleEvent2`. -/
def sampleLine2 : Chars :=
  ("\x7b\"type\":\"OUTPUT\",\"run_id\":\"r1\",\"path\":\"agent\",\"call_id\":\"c2\",\"output\":\"hi\"\x7d").data

/-- A concrete stand-in for `JSON.parse`, defined on the two sample lines. -/
def sampleParse : Chars → Option Json := fun s =>
  if s == sampleLine1 then some sampleEvent1
  else if s == sampleLine2 then some sampleEvent2
  else none

/-- A fragmentation of the two-record stream whose boundaries fall inside
both records (neither fragment ends at a line boundary). -/
def sampleFrags : List Chars :=
  [sampleLine1.take 10, sampleLine1.drop 10 ++ '\n' :: sampleLine2.take 7,
    sampleLine2.drop 7]

/-- Witness for C1: the mid-record fragmentation of the two sample records
decodes to exactly the two validated events, in order. -/
theorem c1_fragment_boundary_invariance_witness :
    streamRunDecode sampleParse sampleFrags = [sampleEvent1, sampleEvent2] ∧
      (streamRunDecode sampleParse sampleFrags).length = 2 := by
  have h := c1_fragment_boundary_invariance sampleParse [sampleLine1, sampleLine2]
    sampleFrags
    (by
      intro r hr
      rw [List.mem_cons, List.mem_singleton] at hr
      rcases hr with rfl | rfl
      · exact ⟨by decide, by decide, by decide⟩
      · exact ⟨by decide, by decide, by decide⟩)
    (Or.inl (by decide))
  exact ⟨h.1.trans (by rfl), h.2⟩

/-! ### Noise lines and claim C7 -/

theorem startsWithL_nil (t : Chars) : startsWithL [] t = true := by
  cases t <;> rfl

theorem startsWithL_cons_cons (c c' : Char) (p t : Chars) :
    startsWithL (c :: p) (c' :: t) = ((c == c') && startsWithL p t) := rfl

theorem startsWith_cons {c : Char} {p t : Chars}
    (h : startsWithL (c :: p) t = true) :
    ∃ r, t = c :: r ∧ startsWithL p r = true := by
  cases t with
  | nil => exact absurd h (by simp [startsWithL, List.isPrefixOf])
  | cons c' r =>
    rw [startsWithL_cons_cons, Bool.and_eq_true, beq_iff_eq] at h
    exact ⟨r, by rw [h.1], h.2⟩

/-- The noise lines of claim C7: blank; a recognized SSE metadata line
(`:`/`id:`/`event:`/`retry:` start); the `[DONE]` sentinel (bare, or framed
as a `data: ` payload, including an empty payload); or a syntactically
invalid JSON line — either `JSON.parse` fails on the payload the decoder
would hand it, or the line does not begin with `{`. -/
def NoiseLine (P : Chars → Option Json) (l : Chars) : Prop :=
  trimChars l = [] ∨
  startsWithL [':'] (trimChars l) = true ∨
  startsWithL ("id:".data) (trimChars l) = true ∨
  startsWithL ("event:".data) (trimChars l) = true ∨
  startsWithL ("retry:".data) (trimChars l) = true ∨
  trimChars l = ("[DONE]".data) ∨
  (startsWithL ("data: ".data) (trimChars l) = true ∧
    (trimChars ((trimChars l).drop 6) = [] ∨
     trimChars ((trimChars l).drop 6) = ("[DONE]".data) ∨
     P (trimChars ((trimChars l).drop 6)) = none)) ∨
  (startsWithL ("data: ".data) (trimChars l) = false ∧
    (startsWithL ['{'] (trimChars l) = false ∨ P (trimChars l) = none))

theorem lineEvents_of_noise {P : Chars → Option Json} {l : Chars}
    (h : NoiseLine P l) : lineEvents P l = [] := by
  rcases h with h | h | h | h | h | h | ⟨hd, h⟩ | ⟨hd, h⟩
  · simp [lineEvents, h]
  · obtain ⟨r, hr, -⟩ := startsWith_cons h
    simp [lineEvents, hr, startsWithL_cons_cons]
  · obtain ⟨r, hr, -⟩ := startsWith_cons h
    rw [hr] at h
    simp [lineEvents, hr, h]
  · obtain ⟨r, hr, -⟩ := startsWith_cons h
    rw [hr] at h
    simp [lineEvents, hr, h]
  · obtain ⟨r, hr, -⟩ := startsWith_cons h
    rw [hr] at h
    simp [lineEvents, hr, h]
  · simp [lineEvents, h, startsWithL, List.isPrefixOf]
  · obtain ⟨r, hr, -⟩ := startsWith_cons hd
    rw [hr] at hd h
    simp only [List.drop_succ_cons] at h
    simp only [lineEvents, hr]
    rw [if_neg (by simp), if_neg (by simp [startsWithL, List.isPrefixOf]), if_pos hd]
    simp only [List.drop_succ_cons]
    rcases h with h | h | h
    · rw [if_pos (by simp [h])]
    · rw [if_pos (by simp [h])]
    · split
      · rfl
      · rw [parseEventStr, h]
        rfl
  · simp only [lineEvents]
    split
    · rfl
    split
    · rfl
    rw [hd, if_neg (by simp)]
    rcases h with h | h
    · rw [h]
      rfl
    · split
      · rfl
      · rw [parseEventStr, h]
        rfl

/-- C7: Decoder robustness to noise.  In a stream that is a sequence of
newline-terminated lines, a blank line, an SSE metadata line, the `[DONE]`
sentinel, or a syntactically invalid JSON line emits no event, and its
presence does not prevent any other line of the stream from being decoded:
the output is exactly the decoding of the lines before plus the lines after
the noise line. -/
theorem c7_noise_never_emits_and_never_terminates (P : Chars → Option Json)
    (pre post : List Chars) (noise : Chars) (frags : List Chars)
    (hpre : ∀ l ∈ pre, '\n' ∉ l) (hpost : ∀ l ∈ post, '\n' ∉ l)
    (hn : '\n' ∉ noise) (hnoise : NoiseLine P noise)
    (hjoin : frags.flatten = joinNl (pre ++ noise :: post) ++ ['\n']) :
    lineEvents P noise = [] ∧
      streamRunDecode P frags =
        pre.flatMap (lineEvents P) ++ post.flatMap (lineEvents P) := by
  have hall : ∀ l ∈ pre ++ noise :: post, '\n' ∉ l := by
    intro l hl
    rcases List.mem_append.1 hl with hl | hl
    · exact hpre l hl
    · rcases List.mem_cons.1 hl with rfl | hl
      · exact hn
      · exact hpost l hl
  have hz := lineEvents_of_noise hnoise
  refine ⟨hz, ?_⟩
  rw [streamRunDecode_eq_decodeAll, hjoin, decodeAll,
    splitSegs_joinNl_newline (by simp) hall, List.dropLast_concat,
    getLastD_append _ (by simp)]
  have hflush : flushBuffer P (([[]] : List Chars).getLastD []) = [] := rfl
  rw [hflush, List.append_nil, List.flatMap_append, List.flatMap_cons, hz,
    List.nil_append]

/-- Witness for C7: an `id:` SSE metadata line between the two sample
records is dropped while both records still decode. -/
theorem c7_noise_witness :
    lineEvents sampleParse ("id: 7".data) = [] ∧
      streamRunDecode sampleParse
          [sampleLine1 ++ '\n' :: ("id:".data),
            (" 7".data) ++ '\n' :: sampleLine2 ++ ['\n']] =
        [sampleEvent1, sampleEvent2] := by
  have h := c7_noise_never_emits_and_never_terminates sampleParse
    [sampleLine1] [sampleLine2] ("id: 7".data)
    [sampleLine1 ++ '\n' :: ("id:".data), (" 7".data) ++ '\n' :: sampleLine2 ++ ['\n']]
    (by decide) (by decide) (by decide)
    (Or.inr (Or.inr (Or.inl (by decide)))) (by decide)
  exact ⟨h.1, h.2.trans (by rfl)⟩

/-! ## JavaScript string conversions

`String(x)` and `JSON.stringify(x)` as used by the reducer. -/

/-- One hexadecimal digit (lower case), for `JSON.stringify` escapes. -/
def hexDigit (n : Nat) : Char :=
  if n < 10 then Char.ofNat ('0'.toNat + n) else Char.ofNat ('a'.toNat + n - 10)

/-- The `JSON.stringify` escape of one character. -/
def jsonEscapeChar (c : Char) : String :=
  if c = '"' then "\\\""
  else if c = '\\' then "\\\\"
  else if c = '\n' then "\\n"
  else if c = '\r' then "\\r"
  else if c = '\t' then "\\t"
  else if c = '\x08' then "\\b"
  else if c = '\x0c' then "\\f"
  else if c.toNat < 32 then
    "\\u00" ++ String.mk [hexDigit (c.toNat / 16), hexDigit (c.toNat % 16)]
  else String.singleton c

/-- A `JSON.stringify` quoted string. -/
def jsonQuote (s : String) : String :=
  "\"" ++ String.join (s.data.map jsonEscapeChar) ++ "\""

mutual

/-- `JSON.stringify` on a parsed JSON value. -/
def jsonStringify : Json → String
  | .null => "null"
  | .bool true => "true"
  | .bool false => "false"
  | .num n => toString n
  | .str s => jsonQuote s
  | .arr xs => "[" ++ jsonStringifyArr xs ++ "]"
  | .obj fs => "\x7b" ++ jsonStringifyObj fs ++ "\x7d"

/-- Comma-joined `JSON.stringify` of array elements. -/
def jsonStringifyArr : List Json → String
  | [] => ""
  | [x] => jsonStringify x
  | x :: xs => jsonStringify x ++ "," ++ jsonStringifyArr xs

/-- Comma-joined `JSON.stringify` of object fields. -/
def jsonStringifyObj : List (String × Json) → String
  | [] => ""
  | [(k, v)] => jsonQuote k ++ ":" ++ jsonStringify v
  | (k, v) :: fs => jsonQuote k ++ ":" ++ jsonStringify v ++ "," ++ jsonStringifyObj fs

end

mutual

/-- JavaScript `String(x)` on a parsed JSON value: arrays join their
elements with commas (`null` elements become empty), objects print as
`[object Object]`. -/
def jsToString : Json → String
  | .null => "null"
  | .bool true => "true"
  | .bool false => "false"
  | .num n => toString n
  | .str s => s
  | .arr xs => jsArrToString xs
  | .obj _ => "[object Object]"

/-- `Array.prototype.join(",")` as used by `String(array)`. -/
def jsArrToString : List Json → String
  | [] => ""
  | [x] =>
    match x with
    | .null => ""
    | y => jsToString y
  | x :: xs =>
    (match x with
     | .null => ""
     | y => jsToString y) ++ "," ++ jsArrToString xs

end

/-! ## The event-to-transcript reducer of `timbal-runtime.tsx`

`streamAssistantResponse` keeps an ordered array of content parts, a
tool-call id→index map, and the captured top-level run id, and publishes a
snapshot of the parts to the assistant message (`updateAssistantMessage`)
after each mutation.  The published snapshot is modelled alongside the
mutable state.  Tool-call ids and names are modelled per the event schema of
`events.ts` (`DeltaItem.id : string`); non-string ids — which the source
would pass through a type-cast — are outside the model and fall back like
absent ones. -/

/-- A content part of the in-flight assistant message. -/
inductive ContentPart where
  | text (text : String) : ContentPart
  | toolCall (toolCallId toolName argsText : String)
      (result : Option String) : ContentPart
deriving DecidableEq

/-- The reducer's mutable state for one turn. -/
structure Core where
  contentParts : List ContentPart
  toolCallMap : List (String × Nat)
  capturedRunId : Option String
  fresh : Nat
deriving DecidableEq

/-- Reducer state plus the content last published to the assistant
message. -/
structure RunSt where
  core : Core
  published : List ContentPart
deriving DecidableEq

/-- `Map.prototype.set`: replace the value of an existing key, else append
the entry. -/
def mapSet (m : List (String × Nat)) (k : String) (v : Nat) :
    List (String × Nat) :=
  match m with
  | [] => [(k, v)]
  | (k', v') :: rest => if k' = k then (k, v) :: rest else (k', v') :: mapSet rest k v

/-- `Map.prototype.get`. -/
def mapGet (m : List (String × Nat)) (k : String) : Option Nat :=
  match m with
  | [] => none
  | (k', v') :: rest => if k' = k then some v' else mapGet rest k

/-- `getOrCreateTextPart` followed by `text += delta`: append to the last
part if it is a text part, else open a new text part. -/
def appendTextDelta (parts : List ContentPart) (delta : String) :
    List ContentPart :=
  match parts.getLast? with
  | some (.text t) => parts.dropLast ++ [.text (t ++ delta)]
  | _ => parts ++ [.text delta]

/-- An `OUTPUT` `text` block: `getOrCreateTextPart`, then write the block's
text only if the current text part is still empty. -/
def outputTextBlock (parts : List ContentPart) (s : String) :
    List ContentPart :=
  match parts.getLast? with
  | some (.text t) => if t = "" then parts.dropLast ++ [.text s] else parts
  | _ => parts ++ [.text s]

/-- `part.argsText += delta` on the part at `idx` (indexed parts are
tool-call parts by construction). -/
def appendArgs (parts : List ContentPart) (idx : Nat) (delta : String) :
    List ContentPart :=
  match parts[idx]? with
  | some (.toolCall i n a r) => parts.set idx (.toolCall i n (a ++ delta) r)
  | _ => parts

/-- `part.result = "Tool executed"` on the part at `idx`. -/
def setResult (parts : List ContentPart) (idx : Nat) (res : String) :
    List ContentPart :=
  match parts[idx]? with
  | some (.toolCall i n a _) => parts.set idx (.toolCall i n a (some res))
  | _ => parts

/-- `typeof input === "string" ? input : JSON.stringify(input ?? ...)` with
an empty-object default for an absent or null input. -/
def inputToStr (inp : Option Json) : String :=
  match inp with
  | some (.str s) => s
  | some .null => jsonStringify (.obj [])
  | some j => jsonStringify j
  | none => jsonStringify (.obj [])

/-- `typeof output === "string" ? output : JSON.stringify(output)`. -/
def outputToStr (out : Json) : String :=
  match out with
  | .str s => s
  | j => jsonStringify j

/-- `(j.key as string) || fallback` for the string-typed fields of the event
schema. -/
def strFieldOr (j : Json) (key : String) (fallback : String) : String :=
  match getField j key with
  | some (.str s) => if s = "" then fallback else s
  | _ => fallback

/-- Whether `(j.key as string)` is falsy or absent, so that the source would
take the `|| fallback` branch (consuming a fresh UUID). -/
def strFieldMissing (j : Json) (key : String) : Bool :=
  match getField j key with
  | some (.str s) => s == ""
  | _ => true

/-- One `OUTPUT` content block (timbal-runtime.tsx lines 302-329): a
`tool_use` block resolves the result of the matching indexed part, else
appends a new completed tool-call part and indexes it; a `text` block
backfills the current text part only if it is still empty. -/
def procOutputBlock (uuid : Nat → String) (c : Core) (block : Json) : Core :=
  match getField block "type" with
  | some (.str t) =>
    if t = "tool_use" then
      let toolCallId := strFieldOr block "id" (uuid c.fresh)
      let fresh' := if strFieldMissing block "id" then c.fresh + 1 else c.fresh
      match mapGet c.toolCallMap toolCallId with
      | some idx =>
        { c with contentParts := setResult c.contentParts idx "Tool executed",
                 fresh := fresh' }
      | none =>
        { c with
          contentParts := c.contentParts ++
            [.toolCall toolCallId (strFieldOr block "name" "unknown")
              (inputToStr (getField block "input")) (some "Tool executed")],
          toolCallMap := mapSet c.toolCallMap toolCallId c.contentParts.length,
          fresh := fresh' }
    else if t = "text" then
      match getField block "text" with
      | some (.str s) => { c with contentParts := outputTextBlock c.contentParts s }
      | _ => c
    else c
  | _ => c

/-- A `DELTA` event's item (timbal-runtime.tsx lines 260-292): `text_delta`
appends to the current text part; `tool_use` appends a new tool-call part
and indexes it by id; `tool_use_delta` appends the input fragment to the
part matching its id, and is a no-op for an unknown id.  Each mutation
publishes a snapshot. -/
def procItem (uuid : Nat → String) (s : RunSt) (item : Json) : RunSt :=
  match getField item "type" with
  | some (.str t) =>
    if t = "text_delta" then
      match getField item "text_delta" with
      | some (.str d) =>
        let parts := appendTextDelta s.core.contentParts d
        { core := { s.core with contentParts := parts }, published := parts }
      | _ => s
    else if t = "tool_use" then
      let toolCallId := strFieldOr item "id" (uuid s.core.fresh)
      let fresh' := if strFieldMissing item "id" then s.core.fresh + 1 else s.core.fresh
      let parts := s.core.contentParts ++
        [.toolCall toolCallId (strFieldOr item "name" "unknown")
          (inputToStr (getField item "input")) none]
      { core := { contentParts := parts,
                  toolCallMap := mapSet s.core.toolCallMap toolCallId
                    s.core.contentParts.length,
                  capturedRunId := s.core.capturedRunId,
                  fresh := fresh' },
        published := parts }
    else if t = "tool_use_delta" then
      match getField item "id" with
      | some (.str i) =>
        match getField item "input_delta" with
        | some d =>
          if i ≠ "" ∧ truthy d = true then
            match mapGet s.core.toolCallMap i with
            | some idx =>
              let parts := appendArgs s.core.contentParts idx (jsToString d)
              { core := { s.core with contentParts := parts }, published := parts }
            | none => s
          else s
        | none => s
      | _ => s
    else s
  | _ => s

/-- The `OUTPUT` fallback (timbal-runtime.tsx lines 331-335): with no
structured content and no accumulated parts, push one text part from the
raw output. -/
def outputFallback (s : RunSt) (out : Json) : RunSt :=
  if s.core.contentParts.length = 0 then
    { core := { s.core with
        contentParts := s.core.contentParts ++ [.text (outputToStr out)] },
      published := s.core.contentParts ++ [.text (outputToStr out)] }
  else s

/-- An `OUTPUT` event (timbal-runtime.tsx lines 297-336): with a truthy
structured content array, process each block then publish; with a string
content, the `for…of` iterates characters and changes nothing (then
publishes); with another truthy non-array content the source's `for…of`
throws before mutating anything, leaving the state unchanged; with no
structured content, fall back to a single text part when nothing has
accumulated.  A falsy output changes nothing. -/
def procOutput (uuid : Nat → String) (s : RunSt) (outO : Option Json) : RunSt :=
  match outO with
  | none => s
  | some out =>
    if truthy out then
      match getField out "content" with
      | some content =>
        if truthy content then
          match content with
          | .arr blocks =>
            let c' := blocks.foldl (procOutputBlock uuid) s.core
            { core := c', published := c'.contentParts }
          | .str _ => { s with published := s.core.contentParts }
          | _ => s
        else outputFallback s out
      | none => outputFallback s out
    else s

/-- The top-level `START` stamping (timbal-runtime.tsx lines 245-254):
capture the run id of the first `START` event whose path has no `.`
separator (stamping it onto the user and assistant messages). -/
def stampStart (s : RunSt) (ev : Json) : RunSt :=
  if (match s.core.capturedRunId with
      | none => true
      | some r => r == "") && isStrField ev "type" "START" then
    match getField ev "run_id", getField ev "path" with
    | some (.str rid), some (.str p) =>
      if ¬ p.contains '.' then
        { s with core := { s.core with capturedRunId := some rid } }
      else s
    | _, _ => s
  else s

/-- `String(event.chunk)`, with `undefined` for an absent field. -/
def chunkToStr (chunkO : Option Json) : String :=
  match chunkO with
  | some j => jsToString j
  | none => "undefined"

/-- A deprecated `CHUNK` event (timbal-runtime.tsx lines 293-296): appended
as plain text. -/
def chunkAppend (s : RunSt) (chunkO : Option Json) : RunSt :=
  { core := { s.core with
      contentParts := appendTextDelta s.core.contentParts (chunkToStr chunkO) },
    published := appendTextDelta s.core.contentParts (chunkToStr chunkO) }

/-- One event through the reducer (timbal-runtime.tsx lines 240-338). -/
def procEvent (uuid : Nat → String) (s : RunSt) (ev : Json) : RunSt :=
  if isStrField ev "type" "DELTA" then
    match getField ev "item" with
    | some item =>
      if truthy item then procItem uuid (stampStart s ev) item
      else stampStart s ev
    | none => stampStart s ev
  else if isStrField ev "type" "CHUNK" then
    chunkAppend (stampStart s ev) (getField ev "chunk")
  else if isStrField ev "type" "OUTPUT" then
    procOutput uuid (stampStart s ev) (getField ev "output")
  else stampStart s ev

/-- The reducer's initial state: the assistant message is created with
empty content. -/
def initRunSt : RunSt where
  core := { contentParts := [], toolCallMap := [], capturedRunId := none, fresh := 0 }
  published := []

/-- The reducer state after a sequence of events. -/
def runEvents (uuid : Nat → String) (evs : List Json) : RunSt :=
  evs.foldl (procEvent uuid) initRunSt

/-- The assistant message content after the stream terminates
(timbal-runtime.tsx lines 352-362): normal completion and abort leave the
last published content; any other error appends one generic failure text
part only when nothing accumulated, then republishes. -/
def terminalContent (errName : Option String) (s : RunSt) : List ContentPart :=
  match errName with
  | none => s.published
  | some n =>
    if n ≠ "AbortError" then
      if s.core.contentParts.length = 0 then
        s.core.contentParts ++ [.text "Something went wrong."]
      else s.core.contentParts
    else s.published

/-! ### The publish invariant and claim C5 -/

theorem stampStart_fields (s : RunSt) (ev : Json) :
    (stampStart s ev).published = s.published ∧
    (stampStart s ev).core.contentParts = s.core.contentParts ∧
    (stampStart s ev).core.toolCallMap = s.core.toolCallMap ∧
    (stampStart s ev).core.fresh = s.core.fresh := by
  unfold stampStart
  refine ⟨?_, ?_, ?_, ?_⟩ <;> (repeat' split) <;> rfl

theorem procItem_inv {s : RunSt} (h : s.published = s.core.contentParts)
    (uuid : Nat → String) (item : Json) :
    (procItem uuid s item).published = (procItem uuid s item).core.contentParts := by
  unfold procItem
  repeat' split
  all_goals simp_all

theorem procOutput_inv {s : RunSt} (h : s.published = s.core.contentParts)
    (uuid : Nat → String) (outO : Option Json) :
    (procOutput uuid s outO).published =
      (procOutput uuid s outO).core.contentParts := by
  unfold procOutput outputFallback
  repeat' split
  all_goals simp_all

theorem procEvent_inv {s : RunSt} (h : s.published = s.core.contentParts)
    (uuid : Nat → String) (ev : Json) :
    (procEvent uuid s ev).published = (procEvent uuid s ev).core.contentParts := by
  have hst := stampStart_fields s ev
  have h1 : (stampStart s ev).published = (stampStart s ev).core.contentParts := by
    rw [hst.1, hst.2.1, h]
  unfold procEvent
  split
  · split
    · split
      · exact procItem_inv h1 uuid _
      · exact h1
    · exact h1
  · split
    · exact rfl
    · split
      · exact procOutput_inv h1 uuid _
      · exact h1

theorem foldl_procEvent_inv (uuid : Nat → String) :
    ∀ (evs : List Json) (s : RunSt), s.published = s.core.contentParts →
      (evs.foldl (procEvent uuid) s).published =
        (evs.foldl (procEvent uuid) s).core.contentParts
  | [], _, h => h
  | ev :: evs, s, h =>
    foldl_procEvent_inv uuid evs (procEvent uuid s ev) (procEvent_inv h uuid ev)

theorem runEvents_published (uuid : Nat → String) (evs : List Json) :
    (runEvents uuid evs).published = (runEvents uuid evs).core.contentParts :=
  foldl_procEvent_inv uuid evs initRunSt rfl

/-- C5: Cancellation freezes content.  If the in-flight run is aborted after
any prefix of the event stream has been reduced, the assistant message's
content is exactly the accumulated content parts — which equal the snapshot
last published before the abort — with no error text appended; for any
non-abort terminal error, a single generic failure text part is published
only when zero content parts had accumulated, and otherwise the accumulated
partial content is left unchanged. -/
theorem c5_cancellation_freezes_content (uuid : Nat → String) (evs : List Json)
    (k : Nat) (errName : String) :
    (terminalContent (some "AbortError") (runEvents uuid (evs.take k)) =
        (runEvents uuid (evs.take k)).core.contentParts ∧
      terminalContent (some "AbortError") (runEvents uuid (evs.take k)) =
        (runEvents uuid (evs.take k)).published) ∧
    (errName ≠ "AbortError" →
      terminalContent (some errName) (runEvents uuid (evs.take k)) =
        if (runEvents uuid (evs.take k)).core.contentParts = [] then
          [ContentPart.text "Something went wrong."]
        else (runEvents uuid (evs.take k)).core.contentParts) := by
  have hpub := runEvents_published uuid (evs.take k)
  constructor
  · have habort : terminalContent (some "AbortError") (runEvents uuid (evs.take k)) =
        (runEvents uuid (evs.take k)).published := by
      simp [terminalContent]
    exact ⟨habort.trans hpub, habort⟩
  · intro hne
    simp only [terminalContent]
    rw [if_pos hne]
    rcases hparts : (runEvents uuid (evs.take k)).core.contentParts with _ | ⟨p, ps⟩
    · simp
    · simp

/-- A concrete UUID supply for evaluating the reducer. -/
def uuid0 : Nat → String := fun n => "uuid-" ++ toString n

/-! ### Claim C4: tool-call delta accumulation -/

theorem isStrField_ne {j : Json} {k a b : String} (h : isStrField j k a = true)
    (hne : a ≠ b) : isStrField j k b = false := by
  unfold isStrField at h ⊢
  rcases hf : getField j k with _ | v
  · simp_all
  · cases v <;> simp_all

theorem truthy_of_getField_some {j : Json} {k : String} {v : Json}
    (h : getField j k = some v) : truthy j = true := by
  cases j <;> simp_all [getField, truthy]

theorem strFieldOr_of_some {j : Json} {k s : String}
    (h : getField j k = some (.str s)) (hne : s ≠ "") (fb : String) :
    strFieldOr j k fb = s := by
  simp [strFieldOr, h, hne]

theorem mapGet_mapSet_self (m : List (String × Nat)) (k : String) (v : Nat) :
    mapGet (mapSet m k v) k = some v := by
  induction m with
  | nil => simp [mapSet, mapGet]
  | cons kv rest ih =>
    rcases kv with ⟨k', v'⟩
    unfold mapSet
    by_cases hk : k' = k
    · rw [if_pos hk]
      simp [mapGet]
    · rw [if_neg hk]
      unfold mapGet
      rw [if_neg hk]
      exact ih

/-- C4: Tool-call delta accumulation.  A `DELTA` event with a `tool_use`
item appends a new tool-call part recording the item's id, name and initial
serialized input, and indexes it by id; a subsequent `tool_use_delta` with a
matching id appends its `input_delta` to that part's serialized-argument
string; a `tool_use_delta` whose id matches no recorded part leaves the
content parts unchanged. -/
theorem c4_tool_use_delta_accumulation (uuid : Nat → String) :
    (∀ (s : RunSt) (ev item : Json) (tid nm inp : String),
      isStrField ev "type" "DELTA" = true →
      getField ev "item" = some item →
      getField item "type" = some (.str "tool_use") →
      getField item "id" = some (.str tid) → tid ≠ "" →
      getField item "name" = some (.str nm) → nm ≠ "" →
      getField item "input" = some (.str inp) →
      (procEvent uuid s ev).core.contentParts =
          s.core.contentParts ++ [.toolCall tid nm inp none] ∧
        mapGet (procEvent uuid s ev).core.toolCallMap tid =
          some s.core.contentParts.length) ∧
    (∀ (s : RunSt) (ev item : Json) (tid d tcid nm args : String) (idx : Nat)
        (r : Option String),
      isStrField ev "type" "DELTA" = true →
      getField ev "item" = some item →
      getField item "type" = some (.str "tool_use_delta") →
      getField item "id" = some (.str tid) → tid ≠ "" →
      getField item "input_delta" = some (.str d) → d ≠ "" →
      mapGet s.core.toolCallMap tid = some idx →
      s.core.contentParts[idx]? = some (.toolCall tcid nm args r) →
      (procEvent uuid s ev).core.contentParts =
        s.core.contentParts.set idx (.toolCall tcid nm (args ++ d) r)) ∧
    (∀ (s : RunSt) (ev item : Json) (tid d : String),
      isStrField ev "type" "DELTA" = true →
      getField ev "item" = some item →
      getField item "type" = some (.str "tool_use_delta") →
      getField item "id" = some (.str tid) →
      getField item "input_delta" = some (.str d) →
      mapGet s.core.toolCallMap tid = none →
      (procEvent uuid s ev).core.contentParts = s.core.contentParts) := by
  refine ⟨?_, ?_, ?_⟩
  · intro s ev item tid nm inp hdelta hitem htype hid htid hnm hnmne hinp
    have hst := stampStart_fields s ev
    unfold procEvent
    rw [if_pos hdelta]
    simp only [hitem]
    rw [if_pos (truthy_of_getField_some htype)]
    unfold procItem
    simp only [htype, String.reduceEq, reduceIte]
    rw [strFieldOr_of_some hid htid, strFieldOr_of_some hnm hnmne, hinp]
    simp only [inputToStr]
    constructor
    · show (stampStart s ev).core.contentParts ++ _ = _
      rw [hst.2.1]

    · show mapGet (mapSet (stampStart s ev).core.toolCallMap tid
        (stampStart s ev).core.contentParts.length) tid = _
      rw [hst.2.2.1, hst.2.1, mapGet_mapSet_self]
  · intro s ev item tid d tcid nm args idx r hdelta hitem htype hid htid hd hdne
      hmap hpart
    have hst := stampStart_fields s ev
    unfold procEvent
    rw [if_pos hdelta]
    simp only [hitem]
    rw [if_pos (truthy_of_getField_some htype)]
    unfold procItem
    simp only [htype, String.reduceEq, reduceIte]
    simp only [hid, hd]
    rw [if_pos ⟨htid, by simp [truthy, hdne]⟩, hst.2.2.1, hmap]
    show appendArgs (stampStart s ev).core.contentParts idx (jsToString (.str d)) = _
    rw [hst.2.1]
    unfold appendArgs
    rw [hpart]
    rfl
  · intro s ev item tid d hdelta hitem htype hid hd hmap
    have hst := stampStart_fields s ev
    unfold procEvent
    rw [if_pos hdelta]
    simp only [hitem]
    rw [if_pos (truthy_of_getField_some htype)]
    unfold procItem
    simp only [htype, String.reduceEq, reduceIte]
    simp only [hid, hd]
    by_cases hcond : tid ≠ "" ∧ truthy (.str d) = true
    · rw [if_pos hcond, hst.2.2.1, hmap]
      exact hst.2.1
    · rw [if_neg hcond]
      exact hst.2.1

/-! ### Claim C3: OUTPUT handling asymmetry -/

theorem stampStart_of_not_start {s : RunSt} {ev : Json}
    (h : isStrField ev "type" "START" = false) : stampStart s ev = s := by
  unfold stampStart
  rw [h, Bool.and_false]
  simp

/-- C3: OUTPUT handling asymmetry.  An `OUTPUT` event with a structured
content array folds its blocks through the block handler and publishes; a
`tool_use` block whose id matches an indexed tool-call part sets that part's
result without appending a duplicate part; a `tool_use` block with an
unmatched id appends a new completed tool-call part and indexes it; a `text`
block writes its text into the current text part only when that part's
accumulated text is empty, and leaves already-streamed text untouched. -/
theorem c3_output_handling_asymmetry (uuid : Nat → String) :
    (∀ (s : RunSt) (ev out : Json) (blocks : List Json),
      isStrField ev "type" "OUTPUT" = true →
      getField ev "output" = some out →
      getField out "content" = some (.arr blocks) →
      procEvent uuid s ev =
        { core := blocks.foldl (procOutputBlock uuid) s.core,
          published := (blocks.foldl (procOutputBlock uuid) s.core).contentParts }) ∧
    (∀ (c : Core) (block : Json) (tid tcid nm args : String) (idx : Nat)
        (r0 : Option String),
      getField block "type" = some (.str "tool_use") →
      getField block "id" = some (.str tid) → tid ≠ "" →
      mapGet c.toolCallMap tid = some idx →
      c.contentParts[idx]? = some (.toolCall tcid nm args r0) →
      (procOutputBlock uuid c block).contentParts =
          c.contentParts.set idx (.toolCall tcid nm args (some "Tool executed")) ∧
        (procOutputBlock uuid c block).contentParts.length =
          c.contentParts.length) ∧
    (∀ (c : Core) (block : Json) (tid : String),
      getField block "type" = some (.str "tool_use") →
      getField block "id" = some (.str tid) → tid ≠ "" →
      mapGet c.toolCallMap tid = none →
      (procOutputBlock uuid c block).contentParts =
          c.contentParts ++ [.toolCall tid (strFieldOr block "name" "unknown")
            (inputToStr (getField block "input")) (some "Tool executed")] ∧
        mapGet (procOutputBlock uuid c block).toolCallMap tid =
          some c.contentParts.length) ∧
    (∀ (c : Core) (block : Json) (str t : String),
      getField block "type" = some (.str "text") →
      getField block "text" = some (.str str) →
      c.contentParts.getLast? = some (.text t) →
      (t ≠ "" → (procOutputBlock uuid c block).contentParts = c.contentParts) ∧
      (t = "" → (procOutputBlock uuid c block).contentParts =
        c.contentParts.dropLast ++ [.text str])) := by
  refine ⟨?_, ?_, ?_, ?_⟩
  · intro s ev out blocks hout houtf hcont
    have hnd : isStrField ev "type" "DELTA" = false := isStrField_ne hout (by decide)
    have hnc : isStrField ev "type" "CHUNK" = false := isStrField_ne hout (by decide)
    have hns : stampStart s ev = s :=
      stampStart_of_not_start (isStrField_ne hout (by decide))
    unfold procEvent
    rw [if_neg (by simp [hnd]), if_neg (by simp [hnc]), if_pos hout, hns]
    unfold procOutput
    simp only [houtf]
    rw [if_pos (truthy_of_getField_some hcont)]
    simp only [hcont]
    rw [if_pos (show truthy (Json.arr blocks) = true from rfl)]
  · intro c block tid tcid nm args idx r0 htype hid htid hmap hpart
    unfold procOutputBlock
    simp only [htype, String.reduceEq, reduceIte]
    rw [strFieldOr_of_some hid htid, hmap]
    refine ⟨?_, ?_⟩
    · show setResult c.contentParts idx "Tool executed" = _
      unfold setResult
      rw [hpart]
    · show (setResult c.contentParts idx "Tool executed").length = _
      unfold setResult
      rw [hpart, List.length_set]
  · intro c block tid htype hid htid hmap
    unfold procOutputBlock
    simp only [htype, String.reduceEq, reduceIte]
    rw [strFieldOr_of_some hid htid, hmap]
    exact ⟨rfl, mapGet_mapSet_self _ _ _⟩
  · intro c block str t htype htext hlast
    unfold procOutputBlock
    simp only [htype, String.reduceEq, reduceIte]
    simp only [htext]
    constructor
    · intro hne
      show outputTextBlock c.contentParts str = _
      unfold outputTextBlock
      simp only [hlast]
      rw [if_neg hne]
    · intro heq
      show outputTextBlock c.contentParts str = _
      unfold outputTextBlock
      simp only [hlast]
      rw [if_pos heq]

/-- The claim's concrete `tool_use` start event: id `t1`, name `search`,
initial input the text of an incomplete JSON object. -/
def toolUseEvent : Json :=
  .obj [("type", .str "DELTA"), ("run_id", .str "r1"), ("path", .str "agent"),
    ("call_id", .str "c1"),
    ("item", .obj [("type", .str "tool_use"), ("id", .str "t1"),
      ("name", .str "search"), ("input", .str "\x7b\"q\":")])]

/-- The claim's concrete `tool_use_delta` event completing the input. -/
def toolUseDeltaEvent : Json :=
  .obj [("type", .str "DELTA"), ("run_id", .str "r1"), ("path", .str "agent"),
    ("call_id", .str "c1"),
    ("item", .obj [("type", .str "tool_use_delta"), ("id", .str "t1"),
      ("input_delta", .str "\"cats\"\x7d")])]

/-- Witness for C4: running the two concrete delta events accumulates the
argument text of the claim, and an unmatched `tool_use_delta` from the
initial state changes nothing. -/
theorem c4_tool_use_delta_witness :
    (procEvent uuid0 (procEvent uuid0 initRunSt toolUseEvent)
        toolUseDeltaEvent).core.contentParts =
      [ContentPart.toolCall "t1" "search" "\x7b\"q\":\"cats\"\x7d" none] ∧
    (procEvent uuid0 initRunSt toolUseDeltaEvent).core.contentParts = [] := by
  have h := c4_tool_use_delta_accumulation uuid0
  have h1 := h.1 initRunSt toolUseEvent
    (.obj [("type", .str "tool_use"), ("id", .str "t1"),
      ("name", .str "search"), ("input", .str "\x7b\"q\":")])
    "t1" "search" "\x7b\"q\":" rfl rfl rfl rfl (by decide) rfl (by decide) rfl
  have h2 := h.2.1 (procEvent uuid0 initRunSt toolUseEvent) toolUseDeltaEvent
    (.obj [("type", .str "tool_use_delta"), ("id", .str "t1"),
      ("input_delta", .str "\"cats\"\x7d")])
    "t1" "\"cats\"\x7d" "t1" "search" "\x7b\"q\":" 0 none
    rfl rfl rfl rfl (by decide) rfl (by decide) (by rw [h1.2]; rfl)
    (by rw [h1.1]; rfl)
  have h3 := h.2.2 initRunSt toolUseDeltaEvent
    (.obj [("type", .str "tool_use_delta"), ("id", .str "t1"),
      ("input_delta", .str "\"cats\"\x7d")])
    "t1" "\"cats\"\x7d" rfl rfl rfl rfl rfl rfl
  refine ⟨h2.trans ?_, h3.trans rfl⟩
  rw [h1.1]
  rfl

/-- An `OUTPUT` event whose structured content resolves tool call `t1`. -/
def outputToolUseEvent : Json :=
  .obj [("type", .str "OUTPUT"), ("run_id", .str "r1"), ("path", .str "agent"),
    ("call_id", .str "c2"),
    ("output", .obj [("content",
      .arr [.obj [("type", .str "tool_use"), ("id", .str "t1"),
        ("name", .str "search"), ("input", .str "\x7b\"q\":\"cats\"\x7d")]])])]

/-- A reducer state owning one nonempty streamed text part. -/
def coreHello : Core :=
  { contentParts := [ContentPart.text "Hello"], toolCallMap := [],
    capturedRunId := none, fresh := 0 }

/-- An `OUTPUT` `text` content block. -/
def textBlockX : Json := .obj [("type", .str "text"), ("text", .str "X")]

/-- Witness for C3: the `OUTPUT` tool_use block resolves the existing `t1`
part in place (one part, result set, no duplicate), and an `OUTPUT` text
block does not overwrite a nonempty streamed text part. -/
theorem c3_output_asymmetry_witness :
    (procEvent uuid0 (runEvents uuid0 [toolUseEvent, toolUseDeltaEvent])
        outputToolUseEvent).core.contentParts =
      [ContentPart.toolCall "t1" "search" "\x7b\"q\":\"cats\"\x7d"
        (some "Tool executed")] ∧
    (procOutputBlock uuid0 coreHello textBlockX).contentParts =
      [ContentPart.text "Hello"] := by
  have h := c3_output_handling_asymmetry uuid0
  have h0 := h.1 (runEvents uuid0 [toolUseEvent, toolUseDeltaEvent])
    outputToolUseEvent
    (.obj [("content",
      .arr [.obj [("type", .str "tool_use"), ("id", .str "t1"),
        ("name", .str "search"), ("input", .str "\x7b\"q\":\"cats\"\x7d")]])])
    [.obj [("type", .str "tool_use"), ("id", .str "t1"),
      ("name", .str "search"), ("input", .str "\x7b\"q\":\"cats\"\x7d")]]
    rfl rfl rfl
  have h3 := (h.2.2.2 coreHello textBlockX "X" "Hello" rfl rfl rfl).1 (by decide)
  refine ⟨?_, h3⟩
  rw [h0]
  rfl


/-- A concrete `DELTA`/`text_delta` event carrying the text `s`. -/
def deltaTextEvent (s : String) : Json :=
  .obj [("type", .str "DELTA"), ("run_id", .str "r1"), ("path", .str "agent"),
    ("call_id", .str "c1"),
    ("item", .obj [("type", .str "text_delta"), ("id", .str "b0"),
      ("text_delta", .str s)])]

/-- Witness for C5: aborting after two text deltas leaves exactly the
streamed text `Hello`; a `TypeError` with nothing accumulated publishes the
single generic failure part. -/
theorem c5_cancellation_witness :
    terminalContent (some "AbortError")
        (runEvents uuid0 ([deltaTextEvent "Hel", deltaTextEvent "lo"].take 2)) =
      [ContentPart.text "Hello"] ∧
    terminalContent (some "TypeError")
        (runEvents uuid0 (([] : List Json).take 0)) =
      [ContentPart.text "Something went wrong."] := by
  have h1 := c5_cancellation_freezes_content uuid0
    [deltaTextEvent "Hel", deltaTextEvent "lo"] 2 "TypeError"
  have h2 := c5_cancellation_freezes_content uuid0 [] 0 "TypeError"
  refine ⟨h1.1.1.trans (by rfl), (h2.2 (by decide)).trans (by rfl)⟩

/-! ### Claim C8: structural validation of decoded lines

`streamRun` (client.ts) validates every surviving line with `parseEvent`.
The reducer of `timbal-runtime.tsx`, however, is fed by its own `parseLine`,
which only requires `JSON.parse` to succeed and performs no field
validation. -/

/-- `parseLine` of `timbal-runtime.tsx` (lines 35-45): trim; drop a blank
line; strip a `data: ` frame without re-trimming; drop the `[DONE]`
sentinel; `JSON.parse` the rest, `null` on failure.  No structural
validation. -/
def parseLine (P : Chars → Option Json) (line : Chars) : Option Json :=
  if (trimChars line).isEmpty then none
  else
    if (if startsWithL ("data: ".data) (trimChars line) = true
        then (trimChars line).drop 6 else trimChars line) == ("[DONE]".data) then
      none
    else
      P (if startsWithL ("data: ".data) (trimChars line) = true
        then (trimChars line).drop 6 else trimChars line)

/-- One line through the reducer's stream loop (timbal-runtime.tsx lines
240-243): decode with `parseLine`; a `null` result is skipped, otherwise the
event goes straight to the event dispatch — nothing validates the required
fields in between. -/
def reducerLineStep (uuid : Nat → String) (P : Chars → Option Json)
    (s : RunSt) (line : Chars) : RunSt :=
  match parseLine P line with
  | some ev => procEvent uuid s ev
  | none => s

theorem validated_of_parseEventStr {P : Chars → Option Json} {s : Chars}
    {e : Json} (h : parseEventStr P s = some e) : validatedEvent e := by
  unfold parseEventStr at h
  rcases hp : P s with _ | j <;> rw [hp] at h
  · simp at h
  · rw [Option.some_bind] at h
    obtain ⟨rfl, hv⟩ := parseEventJson_eq_some h
    exact hv

theorem mem_lineEvents_validated {P : Chars → Option Json} {l : Chars}
    {e : Json} (h : e ∈ lineEvents P l) : validatedEvent e := by
  simp only [lineEvents] at h
  split at h
  · exact absurd h (List.not_mem_nil e)
  split at h
  · exact absurd h (List.not_mem_nil e)
  split at h
  · split at h
    · exact absurd h (List.not_mem_nil e)
    · rcases hp : parseEventStr P (trimChars ((trimChars l).drop 6)) with _ | ev <;>
        rw [hp] at h <;> simp at h
      subst h
      exact validated_of_parseEventStr hp
  · split at h
    · exact absurd h (List.not_mem_nil e)
    · rcases hp : parseEventStr P (trimChars l) with _ | ev <;>
        rw [hp] at h <;> simp at h
      subst h
      exact validated_of_parseEventStr hp

theorem mem_flushBuffer_validated {P : Chars → Option Json} {l : Chars}
    {e : Json} (h : e ∈ flushBuffer P l) : validatedEvent e := by
  simp only [flushBuffer] at h
  split at h
  · exact absurd h (List.not_mem_nil e)
  · rcases hp : parseEventStr P (trimChars l) with _ | ev <;>
      rw [hp] at h <;> simp at h
    subst h
    exact validated_of_parseEventStr hp

/-- C8 (amended): on the `streamRun` decoding path every emitted event has
passed `parseEvent`'s structural validation — `type`, `run_id`, `path` and
`call_id` all truthy and a recognized `type` — and a JSON-object line that
parses but fails that validation is dropped, emitting nothing (so it cannot
terminate the stream).  The reducer of `timbal-runtime.tsx` is NOT fed by
this path: its `parseLine` performs no such validation (see the
counterexample). -/
theorem c8_streamRun_validation (P : Chars → Option Json) :
    (∀ (frags : List Chars) (e : Json),
      e ∈ streamRunDecode P frags → validatedEvent e) ∧
    (∀ (l : Chars) (j : Json), startsWithL ['{'] (trimChars l) = true →
      P (trimChars l) = some j → parseEventJson j = none →
      lineEvents P l = []) := by
  constructor
  · intro frags e he
    rw [streamRunDecode_eq_decodeAll] at he
    unfold decodeAll at he
    rcases List.mem_append.1 he with h | h
    · obtain ⟨l, -, hl⟩ := List.mem_flatMap.1 h
      exact mem_lineEvents_validated hl
    · exact mem_flushBuffer_validated h
  · intro l j hopen hp hfail
    obtain ⟨t', ht⟩ := startsWith_open hopen
    rw [lineEvents_of_open ht, recordEvent, parseEventStr, hp,
      Option.some_bind, hfail]
    rfl

/-- An event object lacking `run_id`, `path` and `call_id`. -/
def noRunIdEvent : Json :=
  .obj [("type", .str "DELTA"),
    ("item", .obj [("type", .str "text_delta"), ("id", .str "b0"),
      ("text_delta", .str "hi")])]

/-- The wire text of `noRunIdEvent`. -/
def noRunIdLine : Chars :=
  ("\x7b\"type\":\"DELTA\",\"item\":\x7b\"type\":\"text_delta\",\"id\":\"b0\",\"text_delta\":\"hi\"\x7d\x7d").data

/-- A concrete stand-in for `JSON.parse` on that line. -/
def parseNoRunId : Chars → Option Json := fun s =>
  if s == noRunIdLine then some noRunIdEvent else none

/-- Counterexample for C8 as stated: the decoding path that actually feeds
the event-to-transcript reducer (`parseLine` in `timbal-runtime.tsx`)
delivers an event object lacking `run_id` to the reducer, which processes
it — its text delta lands in the transcript. -/
theorem c8_counterexample :
    parseLine parseNoRunId noRunIdLine = some noRunIdEvent ∧
    truthyField noRunIdEvent "run_id" = false ∧
    (reducerLineStep uuid0 parseNoRunId initRunSt
        noRunIdLine).core.contentParts = [ContentPart.text "hi"] :=
  ⟨rfl, rfl, rfl⟩

/-- Witness for the amended C8: the sample `START` record decodes on the
`streamRun` path to a validated event, and a JSON line lacking `run_id`
emits nothing there. -/
theorem c8_validation_witness :
    validatedEvent sampleEvent1 ∧ lineEvents parseNoRunId noRunIdLine = [] := by
  have h := c8_streamRun_validation sampleParse
  have h2 := c8_streamRun_validation parseNoRunId
  exact ⟨h.1 [sampleLine1 ++ ['\n']] sampleEvent1 (List.mem_singleton.mpr rfl),
    h2.2 noRunIdLine noRunIdEvent (by decide) rfl rfl⟩

/-! ## The transport retry policy of `src/timbal/client.ts`

`request`, `stream` and `requestFormData` wrap `_fetch` in the same
retry-by-recursion pattern: on a `TimbalApiError` whose `code` is
`TIMEOUT_ERROR` or `NETWORK_ERROR` or whose `statusCode` is at least 500,
and while `retryCount < config.retryAttempts`, they sleep
`retryDelay * (retryCount + 1)` and re-invoke themselves with
`retryCount + 1`.  The recursion below embeds that shared pattern once,
generically in the attempt's result type (a JSON payload for `request`, the
list of yielded chunks for `stream`).  Errors that are not `TimbalApiError`
are rethrown without retrying. -/

/-- The data of a `TimbalApiError` relevant to retrying: the HTTP status
(0 for the client-made timeout/network errors) and the optional machine
code — set to `TIMEOUT_ERROR`/`NETWORK_ERROR` by `_fetch`, or taken from the
server's error body by `TimbalApiError.fromResponse`. -/
structure TimbalApiErrorM where
  statusCode : Int
  code : Option String
deriving DecidableEq

/-- The outcome of one transport attempt. -/
inductive AttemptResult (α : Type) where
  | ok (value : α) : AttemptResult α
  | timbalErr (e : TimbalApiErrorM) : AttemptResult α
  | otherErr : AttemptResult α
deriving DecidableEq

/-- `TimbalConfig.retryAttempts` and `TimbalConfig.retryDelay`. -/
structure RetryCfg where
  retryAttempts : Nat
  retryDelay : Nat
deriving DecidableEq

/-- The `shouldRetry` test of `request`/`stream`/`requestFormData`. -/
def shouldRetry (cfg : RetryCfg) (e : TimbalApiErrorM) (retryCount : Nat) : Bool :=
  (e.code == some "TIMEOUT_ERROR" || e.code == some "NETWORK_ERROR" ||
    decide (500 ≤ e.statusCode)) && decide (retryCount < cfg.retryAttempts)

/-- The retry recursion shared by `request` (client.ts lines 182-209),
`stream` (lines 218-259) and `requestFormData` (lines 383-408): the final
outcome, paired with the total backoff slept. -/
def requestLoop {α : Type} (cfg : RetryCfg) (attempts : Nat → AttemptResult α)
    (retryCount : Nat) : AttemptResult α × Nat :=
  match attempts retryCount with
  | .ok v => (.ok v, 0)
  | .timbalErr e =>
    if h : shouldRetry cfg e retryCount = true then
      ((requestLoop cfg attempts (retryCount + 1)).1,
        cfg.retryDelay * (retryCount + 1) +
          (requestLoop cfg attempts (retryCount + 1)).2)
    else (.timbalErr e, 0)
  | .otherErr => (.otherErr, 0)
termination_by cfg.retryAttempts - retryCount
decreasing_by
  simp only [shouldRetry, Bool.and_eq_true, decide_eq_true_eq] at h
  omega

/-- C2 (amended): on both the buffered request path and the streaming path a
failed attempt is retried exactly when its error's code is `TIMEOUT_ERROR`
or `NETWORK_ERROR` or its HTTP status is ≥ 500 and the prior-attempt count
is below `retryAttempts`; the delay before the k-th retry is
`retryDelay × k` (linear); a call failing twice with `NETWORK_ERROR` and
succeeding on the third attempt (with `retryAttempts ≥ 2`) returns the
success after total sleep `retryDelay×1 + retryDelay×2`; and a 4xx HTTP
error is never retried **provided its server-supplied code is not
`TIMEOUT_ERROR` or `NETWORK_ERROR`** (the qualification the code forces —
see the counterexample). -/
theorem c2_retry_policy {α : Type} (cfg : RetryCfg) :
    (∀ (e : TimbalApiErrorM) (k : Nat),
      shouldRetry cfg e k = true ↔
        ((e.code = some "TIMEOUT_ERROR" ∨ e.code = some "NETWORK_ERROR" ∨
          500 ≤ e.statusCode) ∧ k < cfg.retryAttempts)) ∧
    (∀ (attempts : Nat → AttemptResult α) (e : TimbalApiErrorM) (k : Nat),
      attempts k = .timbalErr e → shouldRetry cfg e k = true →
      requestLoop cfg attempts k =
        ((requestLoop cfg attempts (k + 1)).1,
          cfg.retryDelay * (k + 1) + (requestLoop cfg attempts (k + 1)).2)) ∧
    (∀ (attempts : Nat → AttemptResult α) (e : TimbalApiErrorM) (k : Nat),
      attempts k = .timbalErr e → 400 ≤ e.statusCode → e.statusCode < 500 →
      e.code ≠ some "TIMEOUT_ERROR" → e.code ≠ some "NETWORK_ERROR" →
      requestLoop cfg attempts k = (.timbalErr e, 0)) ∧
    (∀ (attempts : Nat → AttemptResult α) (v : α),
      2 ≤ cfg.retryAttempts →
      attempts 0 = .timbalErr ⟨0, some "NETWORK_ERROR"⟩ →
      attempts 1 = .timbalErr ⟨0, some "NETWORK_ERROR"⟩ →
      attempts 2 = .ok v →
      requestLoop cfg attempts 0 =
        (.ok v, cfg.retryDelay * 1 + cfg.retryDelay * 2)) := by
  refine ⟨?_, ?_, ?_, ?_⟩
  · intro e k
    simp only [shouldRetry, Bool.and_eq_true, Bool.or_eq_true, beq_iff_eq,
      decide_eq_true_eq]
    tauto
  · intro attempts e k hatt hretry
    conv_lhs => rw [requestLoop]
    simp only [hatt]
    rw [dif_pos hretry]
  · intro attempts e k hatt h400 h500 hct hcn
    have hf : shouldRetry cfg e k = false := by
      unfold shouldRetry
      have h1 : (e.code == some "TIMEOUT_ERROR") = false := by
        rw [beq_eq_false_iff_ne]
        exact hct
      have h2 : (e.code == some "NETWORK_ERROR") = false := by
        rw [beq_eq_false_iff_ne]
        exact hcn
      have h3 : decide (500 ≤ e.statusCode) = false := by
        simp only [decide_eq_false_iff_not, not_le]
        omega
      rw [h1, h2, h3]
      rfl
    conv_lhs => rw [requestLoop]
    simp only [hatt]
    rw [dif_neg (by simp [hf])]
  · intro attempts v hA h0 h1 h2
    have hnet : ∀ k, k < cfg.retryAttempts →
        shouldRetry cfg ⟨0, some "NETWORK_ERROR"⟩ k = true := by
      intro k hk
      simp [shouldRetry, hk]
    have e2 : requestLoop cfg attempts 2 = (.ok v, 0) := by
      conv_lhs => rw [requestLoop]
      simp only [h2]
    have e1 : requestLoop cfg attempts 1 =
        (.ok v, cfg.retryDelay * 2 + 0) := by
      conv_lhs => rw [requestLoop]
      simp only [h1]
      rw [dif_pos (hnet 1 (by omega)), e2]
    have e0 : requestLoop cfg attempts 0 =
        (.ok v, cfg.retryDelay * 1 + (cfg.retryDelay * 2 + 0)) := by
      conv_lhs => rw [requestLoop]
      simp only [h0]
      rw [dif_pos (hnet 0 (by omega)), e1]
    rw [e0, Nat.add_zero]

/-- A retry configuration with two attempts and a 7ms base delay. -/
def cfg404 : RetryCfg := ⟨2, 7⟩

/-- An HTTP 404 error whose server-supplied body declared
`code: "NETWORK_ERROR"` — `TimbalApiError.fromResponse` copies the body's
`code` field verbatim. -/
def err404 : TimbalApiErrorM := ⟨404, some "NETWORK_ERROR"⟩

/-- Attempts: the 404-with-network-code error first, success after. -/
def attempts404 : Nat → AttemptResult Nat := fun k =>
  if k = 0 then .timbalErr err404 else .ok 42

/-- Counterexample for C2 as stated: `err404` is a 4xx HTTP error, yet the
transport retries it — the call sleeps one `retryDelay` and returns the
second attempt's success, contradicting "a 4xx HTTP error is never
retried". -/
theorem c2_counterexample :
    400 ≤ err404.statusCode ∧ err404.statusCode < 500 ∧
    shouldRetry cfg404 err404 0 = true ∧
    requestLoop cfg404 attempts404 0 = (.ok 42, 7) := by
  refine ⟨by decide, by decide, by decide, ?_⟩
  have e1 : requestLoop cfg404 attempts404 1 = (.ok 42, 0) := by
    conv_lhs => rw [requestLoop]
    rfl
  conv_lhs => rw [requestLoop]
  simp only [show attempts404 0 = AttemptResult.timbalErr err404 from rfl]
  rw [dif_pos (by decide), show (0 : Nat) + 1 = 1 from rfl, e1]
  rfl

/-- Witness for the amended C2: the two-network-failures-then-success
scenario with `retryAttempts = 3` and `retryDelay = 5` returns the success
after a total sleep of `5×1 + 5×2`. -/
theorem c2_retry_policy_witness :
    requestLoop ⟨3, 5⟩
        (fun k => if k ≤ 1 then .timbalErr ⟨0, some "NETWORK_ERROR"⟩
          else .ok 9) 0 =
      (.ok 9, 5 * 1 + 5 * 2) :=
  (c2_retry_policy (α := Nat) ⟨3, 5⟩).2.2.2
    (fun k => if k ≤ 1 then .timbalErr ⟨0, some "NETWORK_ERROR"⟩ else .ok 9)
    9 (by decide) rfl rfl rfl

/-! ## The authenticated fetch wrapper of the auth token module -/

/-- An HTTP response: its status, and a tag distinguishing concrete
responses. -/
structure Resp where
  status : Int
  tag : Nat
deriving DecidableEq

/-- The module-level token pair (access in memory, refresh persisted). -/
structure AuthState where
  access : Option String
  refresh : Option String
deriving DecidableEq

/-- The outcome of the `/oauth/token` refresh call: a new access token with
an optional rotated refresh token, or any failure (non-ok status or thrown
error). -/
inductive RefreshOutcome where
  | success (accessToken : String) (refreshToken : Option String) : RefreshOutcome
  | failure : RefreshOutcome
deriving DecidableEq

/-- Whether a stored refresh token is truthy (`refreshToken` in the 401
check and in `refreshAccessToken`'s guard). -/
def refreshPresent (st : AuthState) : Bool :=
  match st.refresh with
  | none => false
  | some r => r != ""

/-- `refreshAccessToken` (auth module lines 45-83): `false` without a truthy
stored refresh token; on a successful call store the new access token (and
the rotated refresh token when supplied) and return `true`; on failure clear
both tokens and return `false`. -/
def refreshAccessToken (st : AuthState) (out : RefreshOutcome) :
    AuthState × Bool :=
  match st.refresh with
  | none => (st, false)
  | some r =>
    if r = "" then (st, false)
    else
      match out with
      | .success a newR => ({ access := some a, refresh := some (newR.getD r) }, true)
      | .failure => ({ access := none, refresh := none }, false)

/-- `authFetch` (auth module lines 89-115): fetch with the current bearer
access token; on a 401 with a refresh token stored, refresh once and — only
when the refresh succeeded — re-issue the fetch once with the refreshed
token, returning that second response whatever its status; in every other
case return the first response untouched.  `doFetch tok i` is the `i`-th
fetch issued, carrying bearer token `tok`; the third component counts the
fetches issued. -/
def authFetch (st : AuthState) (doFetch : Option String → Nat → Resp)
    (out : RefreshOutcome) : Resp × AuthState × Nat :=
  if (doFetch st.access 0).status = 401 ∧ refreshPresent st = true then
    match refreshAccessToken st out with
    | (st', true) => (doFetch st'.access 1, st', 2)
    | (st', false) => (doFetch st.access 0, st', 1)
  else (doFetch st.access 0, st, 1)

/-- C9: Authenticated-fetch single refresh-retry.  If the first response is
not a 401, or no (truthy) refresh token is stored, or the refresh fails, the
first response is returned untouched; if the first response is a 401 with a
refresh token present and the refresh succeeds, exactly one retried fetch is
issued with the new bearer token and its response is returned whatever its
status; never more than two fetches per call. -/
theorem c9_authFetch_single_refresh_retry (st : AuthState)
    (doFetch : Option String → Nat → Resp) (out : RefreshOutcome) :
    ((doFetch st.access 0).status ≠ 401 →
      authFetch st doFetch out = (doFetch st.access 0, st, 1)) ∧
    (refreshPresent st = false →
      authFetch st doFetch out = (doFetch st.access 0, st, 1)) ∧
    ((doFetch st.access 0).status = 401 → refreshPresent st = true →
      (refreshAccessToken st out).2 = false →
      authFetch st doFetch out =
        (doFetch st.access 0, (refreshAccessToken st out).1, 1)) ∧
    (∀ (r : String) (a : String) (newR : Option String),
      (doFetch st.access 0).status = 401 → st.refresh = some r → r ≠ "" →
      out = .success a newR →
      authFetch st doFetch out =
        (doFetch (some a) 1,
          { access := some a, refresh := some (newR.getD r) }, 2)) ∧
    (authFetch st doFetch out).2.2 ≤ 2 := by
  refine ⟨?_, ?_, ?_, ?_, ?_⟩
  · intro hne
    unfold authFetch
    rw [if_neg (by intro hc; exact hne hc.1)]
  · intro hrf
    unfold authFetch
    rw [if_neg (by intro hc; rw [hrf] at hc; exact absurd hc.2 (by simp))]
  · intro h401 hrf hfail
    unfold authFetch
    rw [if_pos ⟨h401, hrf⟩]
    rcases hr : refreshAccessToken st out with ⟨st', b⟩
    rcases b with _ | _
    · simp
    · rw [hr] at hfail
      simp at hfail
  · intro r a newR h401 hrefresh hrne hout
    unfold authFetch
    rw [if_pos ⟨h401, by simp [refreshPresent, hrefresh, hrne]⟩]
    have hr : refreshAccessToken st out =
        ({ access := some a, refresh := some (newR.getD r) }, true) := by
      unfold refreshAccessToken
      rw [hrefresh]
      simp only [if_neg hrne, hout]
    rw [hr]
  · unfold authFetch
    split
    · split <;> simp
    · simp

/-- Witness for C9: a 401 first response with a stored refresh token and a
successful refresh returns the second fetch's response under the new bearer
token; a 200 first response is returned untouched. -/
theorem c9_authFetch_witness :
    authFetch ⟨some "old", some "ref"⟩
        (fun _ i => if i = 0 then ⟨401, 0⟩ else ⟨200, 1⟩)
        (.success "new" none) =
      (⟨200, 1⟩, ⟨some "new", some "ref"⟩, 2) ∧
    authFetch ⟨some "old", some "ref"⟩ (fun _ _ => ⟨200, 7⟩)
        (.success "new" none) =
      (⟨200, 7⟩, ⟨some "old", some "ref"⟩, 1) := by
  have h1 := (c9_authFetch_single_refresh_retry ⟨some "old", some "ref"⟩
    (fun _ i => if i = 0 then ⟨401, 0⟩ else ⟨200, 1⟩) (.success "new" none)).2.2.2.1
    "ref" "new" none (by decide) rfl (by decide) rfl
  have h2 := (c9_authFetch_single_refresh_retry ⟨some "old", some "ref"⟩
    (fun _ _ => ⟨200, 7⟩) (.success "new" none)).1 (by decide)
  exact ⟨h1, h2⟩

/-! ## Regeneration (`onReload` of `timbal-runtime.tsx`) -/

/-- A message role. -/
inductive Role where
  | user : Role
  | assistant : Role
deriving DecidableEq

/-- One transcript message. -/
structure ChatMessage where
  id : String
  role : Role
  content : List ContentPart
  runId : Option String
deriving DecidableEq

/-- The target index `onReload` computes: `findIndex` (−1 when the id is
absent) when a message id is given, else `length − 2` (the second-to-last
message). -/
def targetIndex (msgs : List ChatMessage) (messageId : Option String) : Int :=
  match messageId with
  | some mid =>
    match msgs.findIdx? (fun m => m.id == mid) with
    | some n => (n : Int)
    | none => -1
  | none => (msgs.length : Int) - 2

/-- `content.find(c => c.type === "text")`, projected to its text. -/
def firstText (parts : List ContentPart) : Option String :=
  match parts.find? (fun p => match p with | .text _ => true | _ => false) with
  | some (.text t) => some t
  | _ => none

/-- `onReload` (timbal-runtime.tsx lines 400-434): locate the target user
message; bail out (transcript unchanged, `none`) when the index is negative,
out of range, the target is not a user message, or it has no text part;
otherwise truncate to just after the target, append a fresh empty assistant
message, and return the parent-context id — the run id of the last assistant
message strictly before the target — and the re-submitted input. -/
def onReload (msgs : List ChatMessage) (messageId : Option String)
    (newId : String) : Option (List ChatMessage × Option String × String) :=
  if targetIndex msgs messageId < 0 then none
  else
    match msgs[(targetIndex msgs messageId).toNat]? with
    | none => none
    | some um =>
      if um.role = .user then
        match firstText um.content with
        | some input =>
          some (msgs.take ((targetIndex msgs messageId).toNat + 1) ++
              [{ id := newId, role := .assistant, content := [], runId := none }],
            (((msgs.take (targetIndex msgs messageId).toNat).filter
                (fun m => m.role == .assistant)).getLast?).bind
              (fun m => m.runId),
            input)
        | none => none
      else none

/-- C6: Regeneration.  For the located target (by id, or second-to-last
when no id is given): when it is a user message with a text part, the
transcript is truncated to end immediately after it, one fresh empty
assistant message is appended, and the new stream's parent-context id is the
run id of the last assistant message strictly before the target — `none`
when no assistant message precedes it; when the located target is not a
user message (or no target exists), the transcript is left unchanged. -/
theorem c6_regenerate (msgs : List ChatMessage) (messageId : Option String)
    (newId : String) :
    (targetIndex msgs messageId < 0 → onReload msgs messageId newId = none) ∧
    (∀ (idx : Nat) (h : idx < msgs.length),
      targetIndex msgs messageId = (idx : Int) →
      (msgs.get ⟨idx, h⟩).role ≠ .user →
      onReload msgs messageId newId = none) ∧
    (∀ (idx : Nat) (h : idx < msgs.length) (input : String),
      targetIndex msgs messageId = (idx : Int) →
      (msgs.get ⟨idx, h⟩).role = .user →
      firstText (msgs.get ⟨idx, h⟩).content = some input →
      onReload msgs messageId newId =
        some (msgs.take (idx + 1) ++
            [{ id := newId, role := .assistant, content := [], runId := none }],
          (((msgs.take idx).filter (fun m => m.role == .assistant)).getLast?).bind
            (fun m => m.runId),
          input)) ∧
    (∀ (idx : Nat) (h : idx < msgs.length) (input : String),
      targetIndex msgs messageId = (idx : Int) →
      (msgs.get ⟨idx, h⟩).role = .user →
      firstText (msgs.get ⟨idx, h⟩).content = some input →
      (∀ m ∈ msgs.take idx, m.role ≠ .assistant) →
      (onReload msgs messageId newId).map (fun x => x.2.1) = some none) := by
  refine ⟨?_, ?_, ?_, ?_⟩
  · intro hneg
    unfold onReload
    rw [if_pos hneg]
  · intro idx h htarget hrole
    unfold onReload
    rw [if_neg (by omega), htarget]
    simp only [Int.toNat_ofNat, List.getElem?_eq_getElem h, List.get_eq_getElem] at hrole ⊢
    rw [if_neg hrole]
  · intro idx h input htarget hrole htext
    unfold onReload
    rw [if_neg (by omega), htarget]
    simp only [Int.toNat_ofNat, List.getElem?_eq_getElem h, List.get_eq_getElem]
      at hrole htext ⊢
    rw [if_pos hrole]
    simp only [htext]
  · intro idx h input htarget hrole htext hnoassist
    unfold onReload
    rw [if_neg (by omega), htarget]
    simp only [Int.toNat_ofNat, List.getElem?_eq_getElem h, List.get_eq_getElem]
      at hrole htext ⊢
    rw [if_pos hrole]
    simp only [htext]
    have hfilter : (msgs.take idx).filter (fun m => m.role == .assistant) = [] := by
      rw [List.filter_eq_nil_iff]
      intro m hm
      simp only [beq_iff_eq]
      exact hnoassist m hm
    rw [hfilter]
    rfl

/-- A four-message transcript: two user turns, two completed assistant
turns with stamped run ids. -/
def sampleMsgs : List ChatMessage :=
  [{ id := "u1", role := .user, content := [ContentPart.text "hey"], runId := some "r1" },
   { id := "a1", role := .assistant, content := [ContentPart.text "yo"], runId := some "r1" },
   { id := "u2", role := .user, content := [ContentPart.text "hi"], runId := some "r2" },
   { id := "a2", role := .assistant, content := [ContentPart.text "sup"], runId := some "r2" }]

/-- Witness for C6: regenerating with no id targets the second-to-last
message `u2`; the transcript is truncated after `u2` plus a fresh empty
assistant message, and the parent-context id is `a1`'s run id; regenerating
from the first user message of a fresh two-message transcript gets no
parent-context id. -/
theorem c6_regenerate_witness :
    onReload sampleMsgs none "a3" =
      some (sampleMsgs.take 3 ++
          [{ id := "a3", role := .assistant, content := [], runId := none }],
        some "r1", "hi") ∧
    (onReload (sampleMsgs.take 2) (some "u1") "a9").map (fun x => x.2.1) =
      some none := by
  have h1 := (c6_regenerate sampleMsgs none "a3").2.2.1 2 (by decide) "hi"
    (by decide) rfl rfl
  have h2 := (c6_regenerate (sampleMsgs.take 2) (some "u1") "a9").2.2.2 0
    (by decide) "hey" (by decide) rfl rfl (by decide)
  exact ⟨h1.trans (by rfl), h2⟩

/-! ## Claim C10: strictness of `parseEvent`'s validation -/

theorem isStrField_iff {j : Json} {k s : String} :
    isStrField j k s = true ↔ getField j k = some (.str s) := by
  unfold isStrField
  rcases h : getField j k with _ | v
  · simp
  · cases v <;> simp

/-- C10: `parseEvent`'s validation is strictly stronger than field
presence.  On every parsed JSON value it either returns the value unchanged
or throws (never another value); and it returns the value unchanged exactly
when `type`, `run_id`, `path` and `call_id` are all truthy — so a field that
is present but falsy (the empty string in particular) throws — and `type` is
the string `START`, `CHUNK`, `OUTPUT` or `DELTA`; any other `type` value
throws. -/
theorem c10_parseEvent_strict_validation (j : Json) :
    (parseEventJson j = some j ∨ parseEventJson j = none) ∧
    (parseEventJson j = some j ↔
      (truthyField j "type" = true ∧ truthyField j "run_id" = true ∧
        truthyField j "path" = true ∧ truthyField j "call_id" = true ∧
        (getField j "type" = some (.str "START") ∨
         getField j "type" = some (.str "CHUNK") ∨
         getField j "type" = some (.str "OUTPUT") ∨
         getField j "type" = some (.str "DELTA")))) := by
  constructor
  · unfold parseEventJson
    split
    · split
      · exact Or.inl rfl
      · exact Or.inr rfl
    · exact Or.inr rfl
  · constructor
    · intro h
      obtain ⟨-, hv⟩ := parseEventJson_eq_some h
      obtain ⟨h1, h2, h3, h4, h5⟩ := hv
      refine ⟨h1, h2, h3, h4, ?_⟩
      rcases h5 with h5 | h5 | h5 | h5 <;>
        [exact Or.inl (isStrField_iff.1 h5);
         exact Or.inr (Or.inl (isStrField_iff.1 h5));
         exact Or.inr (Or.inr (Or.inl (isStrField_iff.1 h5)));
         exact Or.inr (Or.inr (Or.inr (isStrField_iff.1 h5)))]
    · intro ⟨h1, h2, h3, h4, h5⟩
      refine parseEventJson_of_validated ⟨h1, h2, h3, h4, ?_⟩
      rcases h5 with h5 | h5 | h5 | h5 <;>
        [exact Or.inl (isStrField_iff.2 h5);
         exact Or.inr (Or.inl (isStrField_iff.2 h5));
         exact Or.inr (Or.inr (Or.inl (isStrField_iff.2 h5)));
         exact Or.inr (Or.inr (Or.inr (isStrField_iff.2 h5)))]

end Timbal
